import Mathlib

/-!
# Verification of the go-eventually PostgreSQL event store

Shallow embedding of the event-store core of `Kostassoid/go-eventually`
(PostgreSQL backend): the append path of `eventstore/postgres/store.go`,
the consumer-group lease protocol and streaming functions of
`eventstore/postgres/migrations/6_consumer_groups.up.sql`, and the
checkpointer contract exercised by `TestCheckpointer`.

Machine integers are modelled as `Nat`/`Int` with explicit reduction
modulo `2^32` / `2^64` where the code relies on fixed-width arithmetic.
Timestamps are `Nat` values; `NOW()` is passed explicitly as a `now`
parameter. Fallible operations return `Except`.
-/

/-! ## MD5 (RFC 1321), as used by PostgreSQL's `md5()` function

`hash_64` in `6_consumer_groups.up.sql` is built on `md5(value)`; we embed
the MD5 digest over the UTF-8 bytes of the input string. All 32-bit words
are `Nat` values reduced modulo `2^32`.
-/

deriving instance DecidableEq for Except

/-- One word reduced modulo `2^32`. -/
def w32 (n : Nat) : Nat := n % 4294967296

/-- The 32-bit left rotation by `s` of a value `x < 2^32`. -/
def rotl32 (s x : Nat) : Nat := w32 (x <<< s) ||| (x >>> (32 - s))

/-- The 64 MD5 sine-derived constants `K[i] = floor(2^32 * abs(sin(i+1)))`. -/
def md5K : List Nat :=
  [0xd76aa478, 0xe8c7b756, 0x242070db, 0xc1bdceee,
   0xf57c0faf, 0x4787c62a, 0xa8304613, 0xfd469501,
   0x698098d8, 0x8b44f7af, 0xffff5bb1, 0x895cd7be,
   0x6b901122, 0xfd987193, 0xa679438e, 0x49b40821,
   0xf61e2562, 0xc040b340, 0x265e5a51, 0xe9b6c7aa,
   0xd62f105d, 0x02441453, 0xd8a1e681, 0xe7d3fbc8,
   0x21e1cde6, 0xc33707d6, 0xf4d50d87, 0x455a14ed,
   0xa9e3e905, 0xfcefa3f8, 0x676f02d9, 0x8d2a4c8a,
   0xfffa3942, 0x8771f681, 0x6d9d6122, 0xfde5380c,
   0xa4beea44, 0x4bdecfa9, 0xf6bb4b60, 0xbebfbc70,
   0x289b7ec6, 0xeaa127fa, 0xd4ef3085, 0x04881d05,
   0xd9d4d039, 0xe6db99e5, 0x1fa27cf8, 0xc4ac5665,
   0xf4292244, 0x432aff97, 0xab9423a7, 0xfc93a039,
   0x655b59c3, 0x8f0ccc92, 0xffeff47d, 0x85845dd1,
   0x6fa87e4f, 0xfe2ce6e0, 0xa3014314, 0x4e0811a1,
   0xf7537e82, 0xbd3af235, 0x2ad7d2bb, 0xeb86d391]

/-- The per-operation left-rotation amounts of MD5. -/
def md5S : List Nat :=
  [7, 12, 17, 22, 7, 12, 17, 22, 7, 12, 17, 22, 7, 12, 17, 22,
   5, 9, 14, 20, 5, 9, 14, 20, 5, 9, 14, 20, 5, 9, 14, 20,
   4, 11, 16, 23, 4, 11, 16, 23, 4, 11, 16, 23, 4, 11, 16, 23,
   6, 10, 15, 21, 6, 10, 15, 21, 6, 10, 15, 21, 6, 10, 15, 21]

/-- The MD5 round function for operation `i` on words `b c d`. -/
def md5F (i b c d : Nat) : Nat :=
  if i < 16 then (b &&& c) ||| ((0xffffffff ^^^ b) &&& d)
  else if i < 32 then (d &&& b) ||| ((0xffffffff ^^^ d) &&& c)
  else if i < 48 then b ^^^ c ^^^ d
  else c ^^^ (b ||| (0xffffffff ^^^ d))

/-- The message-word index used by MD5 operation `i`. -/
def md5G (i : Nat) : Nat :=
  if i < 16 then i
  else if i < 32 then (5 * i + 1) % 16
  else if i < 48 then (3 * i + 5) % 16
  else (7 * i) % 16

/-- One MD5 operation: state `(a, b, c, d)`, message words `m`, index `i`. -/
def md5Step (m : List Nat) (st : Nat × Nat × Nat × Nat) (i : Nat) :
    Nat × Nat × Nat × Nat :=
  let (a, b, c, d) := st
  let f := w32 (md5F i b c d + a + md5K.getD i 0 + m.getD (md5G i) 0)
  (d, w32 (b + rotl32 (md5S.getD i 0) f), b, c)

/-- Process one 512-bit block (16 words `m`) of the MD5 input. -/
def md5Block (st : Nat × Nat × Nat × Nat) (m : List Nat) :
    Nat × Nat × Nat × Nat :=
  let (a, b, c, d) := (List.range 64).foldl (md5Step m) st
  (w32 (st.1 + a), w32 (st.2.1 + b), w32 (st.2.2.1 + c), w32 (st.2.2.2 + d))

/-- Group a byte list into little-endian 32-bit words. -/
def leWords : List Nat → List Nat
  | a :: b :: c :: d :: rest =>
      (a + 256 * b + 65536 * c + 16777216 * d) :: leWords rest
  | _ => []

/-- The eight little-endian bytes of the 64-bit message bit length. -/
def leLenBytes (n : Nat) : List Nat :=
  [n % 256, n / 256 % 256, n / 65536 % 256, n / 16777216 % 256,
   n / 4294967296 % 256, n / 1099511627776 % 256,
   n / 281474976710656 % 256, n / 72057594037927936 % 256]

/-- The four little-endian bytes of a 32-bit word. -/
def leBytes4 (n : Nat) : List Nat :=
  [n % 256, n / 256 % 256, n / 65536 % 256, n / 16777216 % 256]

/-- MD5 padding: `0x80`, zeros to 56 mod 64, then the bit length. -/
def md5Pad (msg : List Nat) : List Nat :=
  msg ++ [128] ++ List.replicate ((119 - msg.length % 64) % 64) 0
      ++ leLenBytes (8 * msg.length)

/-- Split a byte list into 64-byte blocks; `fuel` bounds the recursion. -/
def chunk64 : Nat → List Nat → List (List Nat)
  | 0, _ => []
  | fuel + 1, bytes => bytes.take 64 :: chunk64 fuel (bytes.drop 64)

/-- The 16-byte MD5 digest of a byte sequence. -/
def md5Digest (msg : List Nat) : List Nat :=
  let padded := md5Pad msg
  let (a, b, c, d) :=
    (chunk64 (padded.length / 64) padded).foldl
      (fun st blk => md5Block st (leWords blk))
      (0x67452301, 0xefcdab89, 0x98badcfe, 0x10325476)
  leBytes4 a ++ leBytes4 b ++ leBytes4 c ++ leBytes4 d

/-- UTF-8 encoding of one Unicode code point. -/
def utf8Enc (n : Nat) : List Nat :=
  if n < 128 then [n]
  else if n < 2048 then [192 + n / 64, 128 + n % 64]
  else if n < 65536 then [224 + n / 4096, 128 + n / 64 % 64, 128 + n % 64]
  else [240 + n / 262144, 128 + n / 4096 % 64, 128 + n / 64 % 64, 128 + n % 64]

/-- The UTF-8 bytes of a string, the input PostgreSQL's `md5()` hashes. -/
def strBytes (s : String) : List Nat :=
  s.data.flatMap (fun c => utf8Enc c.toNat)

/-! ## `hash_64` and PostgreSQL `MOD`

Source (`6_consumer_groups.up.sql`, lines 61-74):
`SELECT left('x' || md5(hash_64.value), 17)::BIT(64)::BIGINT INTO _hash;`
The first 16 hex characters of the digest are the first 8 digest bytes;
the `BIT(64)::BIGINT` cast reinterprets those 64 bits as a *signed*
two's-complement 64-bit integer.
-/

/-- Reinterpret a 64-bit unsigned value as a signed two's-complement
`BIGINT`. -/
def toSigned64 (u : Nat) : Int :=
  if u < 9223372036854775808 then (u : Int)
  else (u : Int) - 18446744073709551616

/-- The first 64 bits of `md5(value)` read as an unsigned integer: the
value of the 16-hex-character prefix the SQL extracts. -/
def hash64Unsigned (value : String) : Nat :=
  ((md5Digest (strBytes value)).take 8).foldl (fun acc b => acc * 256 + b) 0

/-- The `hash_64` SQL function: first 64 bits of `md5(value)` cast through
`BIT(64)` to a signed `BIGINT`. -/
def hash_64 (value : String) : Int := toSigned64 (hash64Unsigned value)

/-- Following the spec's words (section 4.2), for comparison with the
source-derived `hash_64`: "take a well-known 128-bit digest of the stream
identifier, interpret the first 64 bits as an unsigned integer, reduce
modulo groupSize", yielding a value in `[0, groupSize)`. -/
def specPartition (streamId : String) (groupSize : Nat) : Nat :=
  hash64Unsigned streamId % groupSize

/-- PostgreSQL's `MOD` on `BIGINT`: truncated modulus, whose result takes
the sign of the dividend (`MOD(-7, 3) = -1`). -/
def pgMod (a b : Int) : Int := Int.tmod a b

/-- PostgreSQL's `@` prefix operator on `BIGINT`: absolute value. -/
def pgAbs (a : Int) : Int := |a|

/-! ## Events table and the append path (`store.go`)

A committed row of the `events` table (schema from the migrations and
`spec.md` section 6). Payload and metadata are the JSON strings produced
by `json.Marshal` in `appendEvent`.
-/

/-- One row of the `events` table. -/
structure Row where
  globalSequence : Nat
  streamType : String
  streamId : String
  version : Nat
  eventType : String
  payload : String
  metadata : String
deriving DecidableEq, Repr

/-- The reader-visible store: committed rows plus the global-sequence
counter backing `events_global_sequence_number_seq`. -/
structure Store where
  rows : List Row
  seqCounter : Nat
deriving DecidableEq, Repr

/-- A stream identifier (`eventstore.StreamID`): type and name. -/
structure StreamID where
  type : String
  name : String
deriving DecidableEq, Repr

/-- Current version of a stream: the largest version among its rows,
`0` when the stream has no events (spec section 3: `currentVersion` =
version of the stream's last event). -/
def currentVersion (st : Store) (id : StreamID) : Nat :=
  (st.rows.filter (fun r =>
    r.streamType = id.type && r.streamId = id.name)).foldl
    (fun acc r => max acc r.version) 0

/-- Modelled from the spec: the sentinel `eventstore.VersionCheckAny`
("no check, allow any", spec section 4.1); the `eventstore` package is not
under `src/`. -/
def versionCheckAny : Int := -1

/-- Errors of the append path. `conflict` mirrors `eventstore.ErrConflict`,
which `store.go` documents but never returns; `serialization` mirrors a
`json.Marshal` failure in `appendEvent`. -/
inductive AppendErr where
  | conflict
  | serialization
deriving DecidableEq, Repr

/-- A domain event handed to `Append` (`eventually.Event`): `payload` is
the outcome of `json.Marshal` on the payload (`none` = marshal failure),
`payloadName` is `event.Payload.Name()`, `metadata` is the marshalled
metadata map (`none` = Go `nil` metadata). -/
structure Event where
  payloadName : String
  payload : Option String
  metadata : Option String
deriving DecidableEq, Repr

/-- Modelled from the spec: the `append_to_store` SQL function invoked by
`appendEvent` is not under `src/` (its migration is absent). Per spec
section 4.1 it assigns `version = current + 1` and a freshly reserved,
monotonically increasing global sequence number and persists the event;
per spec section 9 the reference implementation performs no
optimistic-concurrency check (it "currently behaves as 'unconditional
append'"), so the expected-version argument is accepted but not compared. -/
def append_to_store (tx : Store) (streamType streamId : String)
    (_expected : Int) (eventType payload metadata : String) : Store × Nat :=
  let newVersion := currentVersion tx ⟨streamType, streamId⟩ + 1
  let seq := tx.seqCounter + 1
  ({ rows := tx.rows ++
      [⟨seq, streamType, streamId, newVersion, eventType, payload, metadata⟩],
     seqCounter := seq }, newVersion)

/-- Method `EventStore.appendEvent` (`store.go` lines 157-197): marshal the
payload (an error aborts the event), substitute the empty map for `nil`
metadata, then call `append_to_store` with the expected version. -/
def appendEvent (tx : Store) (id : StreamID) (expected : Int)
    (e : Event) : Except AppendErr (Store × Nat) :=
  match e.payload with
  | none => .error .serialization
  | some payloadJSON =>
    let metadataJSON := e.metadata.getD "{}"
    .ok (append_to_store tx id.type id.name expected
          e.payloadName payloadJSON metadataJSON)

/-- The loop body of `EventStore.Append` (`store.go` lines 140-147),
run against the transaction-local view `tx`: each successful
`appendEvent` updates the running result `v` and the expected version
for the next event. -/
def appendLoop (tx : Store) (id : StreamID) (expected : Int) (v : Nat) :
    List Event → Except AppendErr (Store × Nat)
  | [] => .ok (tx, v)
  | e :: rest =>
    match appendEvent tx id expected e with
    | .error err => .error err
    | .ok r => appendLoop r.1 id (r.2 : Int) r.2 rest

/-- Method `EventStore.Append` (`store.go` lines 121-154): open a transaction,
run the loop, commit on success; any error rolls the whole transaction
back, leaving the committed store unchanged. The returned `Store` is the
reader-visible state after the call. -/
def EventStore.Append (st : Store) (id : StreamID) (expected : Int)
    (events : List Event) : Store × Except AppendErr Nat :=
  match appendLoop st id expected 0 events with
  | .error err => (st, .error err)
  | .ok r => (r.1, .ok r.2)

/-! ## Consumer groups and leases (`6_consumer_groups.up.sql`) -/

/-- One row of `consumer_groups`: name (primary key) and size
(`CHECK(size > 0)`). -/
structure ConsumerGroup where
  name : String
  size : Nat
deriving DecidableEq, Repr

/-- One row of `consumer_group_leases`. Lease ids (UUIDs generated by
`uuid_generate_v4()`) are modelled as `Nat` values drawn fresh from a
counter. -/
structure Lease where
  leaseId : Nat
  groupName : String
  member : Nat
  leasedAt : Nat
  expiresAt : Nat
  lastActionAt : Nat
deriving DecidableEq, Repr

/-- The consumer-group tables: `consumer_groups`, `consumer_group_leases`,
plus the fresh-id source for new leases. -/
structure CGState where
  groups : List ConsumerGroup
  leases : List Lease
  nextLeaseId : Nat
deriving DecidableEq, Repr

/-- The SQL interval `INTERVAL '1' HOUR`, in the `Nat` time unit (seconds). -/
def oneHour : Nat := 3600

/-- Errors raised by the PL/pgSQL functions. -/
inductive CGErr where
  /-- Raised as `ERR-0001: consumer group was not found` (announce). -/
  | groupNotFound
  /-- Raised as `ERR-0002: all possible leases have been already reserved`. -/
  | capacityExceeded
  /-- Raised as `0001: consumer group lease was not found` (streaming). -/
  | leaseNotFound
  /-- Raised as `0002: consumer group lease has expired` (streaming). -/
  | leaseExpired
deriving DecidableEq, Repr

/-- A lease is counted as live by the SQL when `expires_at > NOW()`. -/
def unexpired (now : Nat) (l : Lease) : Bool := now < l.expiresAt

/-- Function `announce_consumer_group_member` (`6_consumer_groups.up.sql` lines
28-59): look up the group's size (`ERR-0001` when absent); count leases
of the group with `expires_at > NOW()`; fail with `ERR-0002` when the
count reaches the size; otherwise insert a lease with
`member = number_of_leases` and `expires_at = NOW() + INTERVAL '1' HOUR`
(`leased_at` and `last_action_at` default to `NOW()`). -/
def announce_consumer_group_member (st : CGState) (now : Nat)
    (groupName : String) : Except CGErr (CGState × Lease) :=
  match st.groups.find? (fun g => g.name = groupName) with
  | none => .error .groupNotFound
  | some g =>
    let numberOfLeases := (st.leases.filter (fun l =>
      l.groupName = groupName && unexpired now l)).length
    if g.size ≤ numberOfLeases then .error .capacityExceeded
    else
      let lease : Lease :=
        ⟨st.nextLeaseId, groupName, numberOfLeases, now, now + oneHour, now⟩
      .ok ({ st with leases := st.leases ++ [lease],
                     nextLeaseId := st.nextLeaseId + 1 }, lease)

/-! ## Streaming reads

The `SELECT ... ORDER BY` queries are embedded as a filter over the table
rows followed by a sort on the ordering key; `LIMIT n` takes the first
`n` rows of the sorted result.
-/

/-- Ascending order on the global sequence number (`ORDER BY
global_sequence_number ASC`). -/
def gsLE (a b : Row) : Prop := a.globalSequence ≤ b.globalSequence

instance : DecidableRel gsLE := fun a b =>
  inferInstanceAs (Decidable (a.globalSequence ≤ b.globalSequence))

instance : IsTotal Row gsLE := ⟨fun _ _ => Nat.le_total _ _⟩

instance : IsTrans Row gsLE := ⟨fun _ _ _ h h' => Nat.le_trans h h'⟩

/-- Ascending order on the per-stream version (`ORDER BY "version" ASC`). -/
def versionLE (a b : Row) : Prop := a.version ≤ b.version

instance : DecidableRel versionLE := fun a b =>
  inferInstanceAs (Decidable (a.version ≤ b.version))

instance : IsTotal Row versionLE := ⟨fun _ _ => Nat.le_total _ _⟩

instance : IsTrans Row versionLE := ⟨fun _ _ _ h h' => Nat.le_trans h h'⟩

/-- Method `EventStore.StreamAll` (`store.go` lines 40-55): all events with
`global_sequence_number >= $1`, ordered by global sequence. -/
def EventStore.StreamAll (st : Store) (fromSeq : Nat) : List Row :=
  List.insertionSort gsLE
    (st.rows.filter (fun r => fromSeq ≤ r.globalSequence))

/-- Method `EventStore.StreamByType` (`store.go` lines 61-82): events with
`stream_type = $1 AND global_sequence_number >= $2`, ordered by global
sequence. -/
def EventStore.StreamByType (st : Store) (typ : String) (fromSeq : Nat) :
    List Row :=
  List.insertionSort gsLE
    (st.rows.filter (fun r =>
      r.streamType = typ && fromSeq ≤ r.globalSequence))

/-- Method `EventStore.Stream` (`store.go` lines 85-107): events with
`stream_type = $1 AND stream_id = $2 AND "version" >= $3`, ordered by
version. -/
def EventStore.Stream (st : Store) (id : StreamID) (fromVersion : Nat) :
    List Row :=
  List.insertionSort versionLE
    (st.rows.filter (fun r =>
      r.streamType = id.type && r.streamId = id.name
        && fromVersion ≤ r.version))

/-- The dynamic `WHERE` clause of `_stream_events`: the mandatory
`global_sequence_number > $1` condition, the partition condition
`MOD(@hash_64(e.stream_id), $2) = $3` — the prefix `@` is PostgreSQL's
absolute-value operator, so the `MOD` dividend is the absolute value of
the signed hash — plus the optional `conditions` text (modelled as a row
predicate, `none` for `stream_all`, the `stream_type` equality for
`stream_by_type`). The group size comes from the `LEFT JOIN` on
`consumer_groups` and is `NULL` (`none`) when the group row is absent, in
which case `MOD` is `NULL` and no row matches. -/
def streamEventsMatch (fromSeq : Nat) (size : Option Nat) (member : Nat)
    (conds : Option (Row → Bool)) (r : Row) : Bool :=
  fromSeq < r.globalSequence
    && (match size with
        | none => false
        | some sz =>
          pgMod (pgAbs (hash_64 r.streamId)) (sz : Int) = (member : Int))
    && (match conds with
        | none => true
        | some p => p r)

/-- Function `_stream_events` (`6_consumer_groups.up.sql` lines 76-137): select the
lease (error `0001` when absent) joined with its group's size; error
`0002` when `expires_at < NOW()`; renew the lease
(`last_action_at = NOW()`, `expires_at = NOW() + INTERVAL '1' HOUR`);
then return matching events ordered by `global_sequence_number`, limited
to `batch_size` rows when `batch_size > 0`. Returns the updated lease
table together with the rows. -/
def streamEvents (events : Store) (st : CGState) (now : Nat)
    (fromSeq : Nat) (batchSize : Nat) (leaseId : Nat)
    (conds : Option (Row → Bool)) : Except CGErr (CGState × List Row) :=
  match st.leases.find? (fun l => l.leaseId = leaseId) with
  | none => .error .leaseNotFound
  | some lease =>
    let size := (st.groups.find? (fun g => g.name = lease.groupName)).map
      (fun g => g.size)
    if lease.expiresAt < now then .error .leaseExpired
    else
      let st' := { st with leases := st.leases.map (fun l =>
        if l.leaseId = leaseId then
          { l with lastActionAt := now, expiresAt := now + oneHour }
        else l) }
      let sorted := List.insertionSort gsLE (events.rows.filter
        (streamEventsMatch fromSeq size lease.member conds))
      .ok (st', if 0 < batchSize then sorted.take batchSize else sorted)

/-- Function `stream_by_type` (`6_consumer_groups.up.sql` lines 139-156): delegate
to `_stream_events` with the `stream_type` equality condition. -/
def stream_by_type (events : Store) (st : CGState) (now : Nat)
    (streamType : String) (fromSeq : Nat) (batchSize : Nat)
    (leaseId : Nat) : Except CGErr (CGState × List Row) :=
  streamEvents events st now fromSeq batchSize leaseId
    (some (fun r => r.streamType = streamType))

/-- Function `stream_all` (`6_consumer_groups.up.sql` lines 158-173): delegate to
`_stream_events` with no extra condition. -/
def stream_all (events : Store) (st : CGState) (now : Nat)
    (fromSeq : Nat) (batchSize : Nat) (leaseId : Nat) :
    Except CGErr (CGState × List Row) :=
  streamEvents events st now fromSeq batchSize leaseId none

/-! ## Checkpointer -/

/-- The `subscriptions_checkpoints` table: subscription name (primary
key) to last processed sequence number. -/
def CkState := List (String × Nat)

/-- Modelled from the spec: `Checkpointer.Read` is not under `src/` (only
`TestCheckpointer` is). Spec section 4.5:
`Read(subscriptionName) -> sequenceNumber (0 if absent)`. -/
def ckRead : List (String × Nat) → String → Nat
  | [], _ => 0
  | p :: rest, name => if p.1 = name then p.2 else ckRead rest name

/-- Modelled from the spec: `Checkpointer.Write` is not under `src/` (only
`TestCheckpointer` is). Spec section 4.5: `Write(subscriptionName,
sequenceNumber)` is an idempotent, last-write-wins upsert: overwrite the
row keyed by the name when present, insert it otherwise. -/
def ckWrite : List (String × Nat) → String → Nat → List (String × Nat)
  | [], name, n => [(name, n)]
  | p :: rest, name, n =>
    if p.1 = name then (name, n) :: rest else p :: ckWrite rest name n

/-- A recorded checkpoint operation: the writes issued so far. -/
def ckRun (ops : List (String × Nat)) : List (String × Nat) :=
  ops.foldl (fun s op => ckWrite s op.1 op.2) []

/-! ## Claims -/

/-- The failing input of claim C1: the stream ("order", "42") already
holds two committed events, so its current version is 2. -/
def c1Store : Store :=
  ⟨[⟨1, "order", "42", 1, "test", "1", "{}"⟩,
    ⟨2, "order", "42", 2, "test", "2", "{}"⟩], 2⟩

/-- The event appended at the failing input of claim C1. -/
def c1Event : Event := ⟨"test", some "3", none⟩

/-- Claim C1: appending with an `expectedVersion` that differs from the
stream's current version (and from the no-check sentinel) should fail
with `ErrConflict` and leave the stream unchanged. The code instead
appends unconditionally: at a stream of current version 2, `Append` with
`expectedVersion = 0` succeeds, returns version 3, and grows the stream
to 3 events (`store.go` documents this: "this implementation is not
returning yet eventstore.ErrConflict"). -/
theorem append_ignores_stale_expected_version :
    (0 : Int) ≠ versionCheckAny ∧
    currentVersion c1Store ⟨"order", "42"⟩ = 2 ∧
    (EventStore.Append c1Store ⟨"order", "42"⟩ 0 [c1Event]).2 = .ok 3 ∧
    currentVersion (EventStore.Append c1Store ⟨"order", "42"⟩ 0 [c1Event]).1
      ⟨"order", "42"⟩ = 3 ∧
    (EventStore.Append c1Store ⟨"order", "42"⟩ 0 [c1Event]).1.rows.length = 3 := by
  decide

/-- Claim C2: at most one unexpired lease should exist per
(groupName, memberIndex) at any instant. Counter-run on the code: for a
group "g" of size 2, Announce at time 0 (member 0, expires 3600) and at
time 100 (member 1, expires 3700) fill the group; at time 3600 the
member-0 lease has expired, so a third Announce counts one live lease
and hands out member index 1 again — at instant 3600 two distinct
unexpired leases both carry (g, 1). -/
theorem announce_duplicates_member_index :
    announce_consumer_group_member ⟨[⟨"g", 2⟩], [], 0⟩ 0 "g" =
      .ok (⟨[⟨"g", 2⟩], [⟨0, "g", 0, 0, 3600, 0⟩], 1⟩,
           ⟨0, "g", 0, 0, 3600, 0⟩) ∧
    announce_consumer_group_member
        ⟨[⟨"g", 2⟩], [⟨0, "g", 0, 0, 3600, 0⟩], 1⟩ 100 "g" =
      .ok (⟨[⟨"g", 2⟩],
            [⟨0, "g", 0, 0, 3600, 0⟩, ⟨1, "g", 1, 100, 3700, 100⟩], 2⟩,
           ⟨1, "g", 1, 100, 3700, 100⟩) ∧
    announce_consumer_group_member
        ⟨[⟨"g", 2⟩],
         [⟨0, "g", 0, 0, 3600, 0⟩, ⟨1, "g", 1, 100, 3700, 100⟩], 2⟩ 3600 "g" =
      .ok (⟨[⟨"g", 2⟩],
            [⟨0, "g", 0, 0, 3600, 0⟩, ⟨1, "g", 1, 100, 3700, 100⟩,
             ⟨2, "g", 1, 3600, 7200, 3600⟩], 3⟩,
           ⟨2, "g", 1, 3600, 7200, 3600⟩) ∧
    (⟨1, "g", 1, 100, 3700, 100⟩ : Lease) ≠ ⟨2, "g", 1, 3600, 7200, 3600⟩ ∧
    unexpired 3600 ⟨1, "g", 1, 100, 3700, 100⟩ = true ∧
    unexpired 3600 ⟨2, "g", 1, 3600, 7200, 3600⟩ = true := by
  decide

set_option maxRecDepth 1000000 in
/-- Claim C3's definition of the partition function — "interpret the
first 64 bits as an unsigned integer, reduce modulo groupSize" — does not
match the code: the streaming filter computes `MOD(@hash_64(id), N)`, the
absolute value (`@`) of the *signed* 64-bit reading reduced modulo N.
For stream id "b" (digest starts `92eb...`, top bit set) and group size
5, the claim's formula gives 2 while the code's value is 4: member 4, not
member 2, sees the event. -/
theorem code_partition_differs_from_unsigned_mod :
    specPartition "b" 5 = 2 ∧
    hash_64 "b" < 0 ∧
    pgMod (pgAbs (hash_64 "b")) 5 = 4 ∧
    streamEventsMatch 0 (some 5) 4 none ⟨1, "t", "b", 1, "e", "p", "{}"⟩
      = true ∧
    streamEventsMatch 0 (some 5) 2 none ⟨1, "t", "b", 1, "e", "p", "{}"⟩
      = false := by
  decide

/-- The counterexample state of claim C4: for group "g" of size 3, the
member-0 lease has expired by time 3600 while the member-1 lease is
still live. -/
def c4State : CGState :=
  ⟨[⟨"g", 3⟩], [⟨0, "g", 0, 0, 3600, 0⟩, ⟨1, "g", 1, 100, 3700, 100⟩], 2⟩

/-- Claim C4 is wrong where it glosses the allocated index as "the lowest
free index": at `c4State` at time 3600 one live lease exists (member 1),
so Announce allocates member index 1 = count — yet index 0 has no
unexpired lease, so the lowest free index is 0, not 1. -/
theorem announce_member_not_lowest_free :
    (announce_consumer_group_member c4State 3600 "g").map
      (fun p => p.2.member) = .ok 1 ∧
    (∀ l ∈ c4State.leases,
      ¬(l.groupName = "g" ∧ l.member = 0 ∧ unexpired 3600 l = true)) := by
  decide

/-- Claim C4 (amended: the new lease's member index equals the count of
currently-unexpired leases, which need not be the lowest free index):
`Announce` fails with `ErrGroupNotFound` when the group is unknown, fails
with `ErrCapacityExceeded` when the count of unexpired leases reaches the
group size, and otherwise succeeds, inserting a lease with
`member = count`, `leasedAt = lastActionAt = now` and
`expiresAt = now + 1 hour`. -/
theorem announce_characterization (st : CGState) (now : Nat) (gname : String) :
    (st.groups.find? (fun g => g.name = gname) = none →
      announce_consumer_group_member st now gname = .error .groupNotFound) ∧
    (∀ g, st.groups.find? (fun g' => g'.name = gname) = some g →
      (g.size ≤ (st.leases.filter (fun l =>
          l.groupName = gname && unexpired now l)).length →
        announce_consumer_group_member st now gname =
          .error .capacityExceeded) ∧
      ((st.leases.filter (fun l =>
          l.groupName = gname && unexpired now l)).length < g.size →
        announce_consumer_group_member st now gname =
          .ok (⟨st.groups,
                st.leases ++
                  [⟨st.nextLeaseId, gname,
                    (st.leases.filter (fun l =>
                      l.groupName = gname && unexpired now l)).length,
                    now, now + oneHour, now⟩],
                st.nextLeaseId + 1⟩,
               ⟨st.nextLeaseId, gname,
                (st.leases.filter (fun l =>
                  l.groupName = gname && unexpired now l)).length,
                now, now + oneHour, now⟩))) := by
  refine ⟨fun h => ?_, fun g hg => ⟨fun hle => ?_, fun hlt => ?_⟩⟩
  · simp [announce_consumer_group_member, h]
  · simp [announce_consumer_group_member, hg, hle]
  · simp [announce_consumer_group_member, hg, Nat.not_le.mpr hlt]

/-- Witness for `announce_characterization` at a concrete state: a fresh
group of size 1 hands out member 0 expiring one hour later, and an
unknown group is refused. -/
theorem announce_characterization_witness :
    announce_consumer_group_member ⟨[⟨"g", 1⟩], [], 0⟩ 7 "g" =
      .ok (⟨[⟨"g", 1⟩], [⟨0, "g", 0, 7, 3607, 7⟩], 1⟩,
           ⟨0, "g", 0, 7, 3607, 7⟩) ∧
    announce_consumer_group_member ⟨[⟨"g", 1⟩], [], 0⟩ 7 "h" =
      .error .groupNotFound := by
  constructor
  · have h := ((announce_characterization ⟨[⟨"g", 1⟩], [], 0⟩ 7 "g").2
      ⟨"g", 1⟩ (by decide)).2 (by decide)
    simpa using h
  · exact (announce_characterization ⟨[⟨"g", 1⟩], [], 0⟩ 7 "h").1 (by decide)

/-! ### Lemmas on the append loop -/

/-- Appending through `append_to_store` adds exactly the one new row at
the end of the table. -/
theorem append_to_store_rows (tx : Store) (t i : String) (exp : Int)
    (et p md : String) :
    (append_to_store tx t i exp et p md).1.rows =
      tx.rows ++ [⟨tx.seqCounter + 1, t, i,
        currentVersion tx ⟨t, i⟩ + 1, et, p, md⟩] := rfl

/-- Appending one event bumps the stream's current version by one. -/
theorem currentVersion_append_to_store (tx : Store) (id : StreamID)
    (exp : Int) (et p md : String) :
    currentVersion (append_to_store tx id.type id.name exp et p md).1 id =
      currentVersion tx id + 1 := by
  simp only [currentVersion, append_to_store, List.filter_append,
    List.foldl_append]
  simp [List.filter, currentVersion]

/-- The loop errs exactly when some event of the batch fails to marshal,
and the only error it produces is the serialization one. -/
theorem appendLoop_error_iff (id : StreamID) :
    ∀ (es : List Event) (tx : Store) (exp : Int) (v : Nat) (err : AppendErr),
      appendLoop tx id exp v es = .error err ↔
        err = .serialization ∧ ∃ e ∈ es, e.payload = none := by
  intro es
  induction es with
  | nil => intro tx exp v err; simp [appendLoop]
  | cons e rest ih =>
    intro tx exp v err
    cases hp : e.payload with
    | none =>
      simp only [appendLoop, appendEvent, hp, Except.error.injEq]
      constructor
      · rintro rfl
        exact ⟨rfl, e, List.mem_cons_self e rest, hp⟩
      · rintro ⟨rfl, _⟩
        rfl
    | some p =>
      simp only [appendLoop, appendEvent, hp]
      simp [ih, hp]

/-- A successful loop extends the table by exactly one row per event. -/
theorem appendLoop_ok_rows (id : StreamID) :
    ∀ (es : List Event) (tx : Store) (exp : Int) (v : Nat) (tx' : Store)
      (v' : Nat),
      appendLoop tx id exp v es = .ok (tx', v') →
      ∃ nr : List Row, tx'.rows = tx.rows ++ nr ∧ nr.length = es.length := by
  intro es
  induction es with
  | nil =>
    intro tx exp v tx' v' h
    simp only [appendLoop, Except.ok.injEq, Prod.mk.injEq] at h
    exact ⟨[], by simp [← h.1]⟩
  | cons e rest ih =>
    intro tx exp v tx' v' h
    cases hp : e.payload with
    | none => simp [appendLoop, appendEvent, hp] at h
    | some p =>
      simp only [appendLoop, appendEvent, hp] at h
      obtain ⟨nr, hnr, hlen⟩ := ih _ _ _ _ _ h
      refine ⟨⟨tx.seqCounter + 1, id.type, id.name,
        currentVersion tx id + 1, e.payloadName, p,
        e.metadata.getD "{}"⟩ :: nr, ?_, by simp [hlen]⟩
      rw [hnr, append_to_store_rows]
      simp

/-- One successful step of the loop: a marshalable head event is pushed
through `append_to_store`, and the loop continues on the tail with the
just-written version as both the running result and the next expected
version. -/
theorem appendLoop_cons_some (tx : Store) (id : StreamID) (exp : Int)
    (v : Nat) (e : Event) (rest : List Event) (p : String)
    (hp : e.payload = some p) :
    appendLoop tx id exp v (e :: rest) =
      appendLoop (append_to_store tx id.type id.name exp e.payloadName p
          (e.metadata.getD "{}")).1 id
        ((append_to_store tx id.type id.name exp e.payloadName p
          (e.metadata.getD "{}")).2 : Int)
        (append_to_store tx id.type id.name exp e.payloadName p
          (e.metadata.getD "{}")).2 rest := by
  conv_lhs => rw [appendLoop]
  simp [appendEvent, hp]

/-- The version returned by `append_to_store` is the stream's previous
version plus one. -/
theorem append_to_store_version (tx : Store) (id : StreamID) (exp : Int)
    (et p md : String) :
    (append_to_store tx id.type id.name exp et p md).2 =
      currentVersion tx id + 1 := rfl

/-- When every event of a nonempty batch marshals, the loop succeeds and
returns the pre-batch stream version plus the batch length, which is also
the stream's version afterwards. -/
theorem appendLoop_ok_of_marshalable (id : StreamID) :
    ∀ (es : List Event) (tx : Store) (exp : Int) (v : Nat),
      es ≠ [] → (∀ e ∈ es, e.payload ≠ none) →
      ∃ tx', appendLoop tx id exp v es =
          .ok (tx', currentVersion tx id + es.length) ∧
        currentVersion tx' id = currentVersion tx id + es.length := by
  intro es
  induction es with
  | nil => intro tx exp v hne _; exact absurd rfl hne
  | cons e rest ih =>
    intro tx exp v _ hok
    have hp' : e.payload ≠ none := hok e (List.mem_cons_self e rest)
    obtain ⟨p, hp⟩ := Option.ne_none_iff_exists'.mp hp'
    have hstep := appendLoop_cons_some tx id exp v e rest p hp
    have hcv := currentVersion_append_to_store tx id exp e.payloadName p
      (e.metadata.getD "{}")
    cases rest with
    | nil =>
      refine ⟨(append_to_store tx id.type id.name exp e.payloadName p
        (e.metadata.getD "{}")).1, ?_, by simp [hcv]⟩
      rw [hstep]
      simp [appendLoop, append_to_store_version]
    | cons e2 rest2 =>
      obtain ⟨tx', h1, h2⟩ := ih
        (append_to_store tx id.type id.name exp e.payloadName p
          (e.metadata.getD "{}")).1
        ((append_to_store tx id.type id.name exp e.payloadName p
          (e.metadata.getD "{}")).2 : Int)
        (append_to_store tx id.type id.name exp e.payloadName p
          (e.metadata.getD "{}")).2
        (by simp) (fun x hx => hok x (List.mem_cons_of_mem e hx))
      refine ⟨tx', ?_, ?_⟩
      · rw [hstep, h1, hcv]
        congr 1
        simp [List.length_cons]
        omega
      · rw [h2, hcv]
        simp [List.length_cons]
        omega

/-- Claim C5: a batch append is all-or-nothing. An error (and the only
error of the loop is a failed marshal of some event of the batch) rolls
the transaction back, leaving the reader-visible store exactly as before;
on success the table has grown by exactly one committed row per event of
the batch. -/
theorem append_batch_all_or_nothing (st : Store) (id : StreamID)
    (expected : Int) (events : List Event) :
    (∀ err, (EventStore.Append st id expected events).2 = .error err →
      (EventStore.Append st id expected events).1 = st) ∧
    ((∃ err, (EventStore.Append st id expected events).2 = .error err) ↔
      ∃ e ∈ events, e.payload = none) ∧
    (∀ v, (EventStore.Append st id expected events).2 = .ok v →
      ∃ nr, (EventStore.Append st id expected events).1.rows =
          st.rows ++ nr ∧ nr.length = events.length) := by
  cases h : appendLoop st id expected 0 events with
  | error err =>
    have herr := (appendLoop_error_iff id events st expected 0 err).mp h
    refine ⟨fun _ _ => ?_, ⟨fun _ => herr.2, fun _ => ?_⟩, fun v hv => ?_⟩
    · simp [EventStore.Append, h]
    · exact ⟨err, by simp [EventStore.Append, h]⟩
    · simp [EventStore.Append, h] at hv
  | ok r =>
    refine ⟨fun err herr => ?_, ⟨?_, ?_⟩, fun v hv => ?_⟩
    · simp [EventStore.Append, h] at herr
    · rintro ⟨err, herr⟩
      simp [EventStore.Append, h] at herr
    · rintro ⟨e, he, hpe⟩
      have hcontra : appendLoop st id expected 0 events =
          .error .serialization :=
        (appendLoop_error_iff id events st expected 0 .serialization).mpr
          ⟨rfl, e, he, hpe⟩
      rw [h] at hcontra
      exact absurd hcontra (by simp)
    · have hrows := appendLoop_ok_rows id events st expected 0 r.1 r.2
        (by rw [h])
      simpa [EventStore.Append, h] using hrows

/-- Witness for `append_batch_all_or_nothing`: on the empty store, a batch
whose second event fails to marshal leaves the store untouched, while a
fully marshalable two-event batch commits exactly two rows. -/
theorem append_batch_all_or_nothing_witness :
    (EventStore.Append ⟨[], 0⟩ ⟨"order", "42"⟩ (-1)
        [⟨"e", some "1", none⟩, ⟨"e", none, none⟩]).1 = ⟨[], 0⟩ ∧
    ∃ nr, (EventStore.Append ⟨[], 0⟩ ⟨"order", "42"⟩ (-1)
        [⟨"e", some "1", none⟩, ⟨"e", some "2", none⟩]).1.rows =
        [] ++ nr ∧ nr.length = 2 := by
  constructor
  · exact (append_batch_all_or_nothing ⟨[], 0⟩ ⟨"order", "42"⟩ (-1)
      [⟨"e", some "1", none⟩, ⟨"e", none, none⟩]).1 .serialization (by decide)
  · exact (append_batch_all_or_nothing ⟨[], 0⟩ ⟨"order", "42"⟩ (-1)
      [⟨"e", some "1", none⟩, ⟨"e", some "2", none⟩]).2.2 2 (by decide)

/-- Claim C6: during a multi-event append the expected version advances to
the just-written version after each successfully appended event — which
equals the stream's version inside the transaction at that point, so only
the caller's pre-batch `expectedVersion` can disagree with the stream
version — and on success `Append` returns the pre-batch version plus the
batch length: the version assigned to the last event, which is the new
stream version. -/
theorem append_expected_advances_returns_last (st : Store) (id : StreamID)
    (expected : Int) (events : List Event)
    (hne : events ≠ []) (hok : ∀ e ∈ events, e.payload ≠ none) :
    (EventStore.Append st id expected events).2 =
      .ok (currentVersion st id + events.length) ∧
    currentVersion (EventStore.Append st id expected events).1 id =
      currentVersion st id + events.length ∧
    (∀ (tx : Store) (exp : Int) (v : Nat) (e : Event) (rest : List Event)
        (p : String), e.payload = some p →
      appendLoop tx id exp v (e :: rest) =
        appendLoop (append_to_store tx id.type id.name exp e.payloadName p
            (e.metadata.getD "{}")).1 id
          ((currentVersion tx id + 1 : Nat) : Int)
          (currentVersion tx id + 1) rest ∧
      currentVersion (append_to_store tx id.type id.name exp e.payloadName p
          (e.metadata.getD "{}")).1 id = currentVersion tx id + 1) := by
  obtain ⟨tx', h1, h2⟩ :=
    appendLoop_ok_of_marshalable id events st expected 0 hne hok
  refine ⟨by simp [EventStore.Append, h1], by simp [EventStore.Append, h1, h2],
    fun tx exp v e rest p hp => ?_⟩
  refine ⟨?_, currentVersion_append_to_store tx id exp e.payloadName p
    (e.metadata.getD "{}")⟩
  have hstep := appendLoop_cons_some tx id exp v e rest p hp
  rw [hstep, append_to_store_version]

/-- Witness for `append_expected_advances_returns_last`: a two-event batch
on the empty store returns version 2 with pre-call expected version 0. -/
theorem append_expected_advances_witness :
    (EventStore.Append ⟨[], 0⟩ ⟨"order", "42"⟩ 0
        [⟨"e", some "1", none⟩, ⟨"e", some "2", none⟩]).2 = .ok 2 := by
  have h := (append_expected_advances_returns_last ⟨[], 0⟩ ⟨"order", "42"⟩ 0
    [⟨"e", some "1", none⟩, ⟨"e", some "2", none⟩] (by decide) (by decide)).1
  simpa [currentVersion] using h

/-! ### Lemmas on `_stream_events` -/

/-- An unknown lease id makes `_stream_events` raise the not-found error. -/
theorem streamEvents_not_found (events : Store) (cg : CGState)
    (now fromSeq bs lid : Nat) (conds : Option (Row → Bool))
    (hfind : cg.leases.find? (fun l => l.leaseId = lid) = none) :
    streamEvents events cg now fromSeq bs lid conds =
      .error .leaseNotFound := by
  simp [streamEvents, hfind]

/-- An expired lease makes `_stream_events` raise the expired error. -/
theorem streamEvents_expired (events : Store) (cg : CGState)
    (now fromSeq bs lid : Nat) (conds : Option (Row → Bool)) (lease : Lease)
    (hfind : cg.leases.find? (fun l => l.leaseId = lid) = some lease)
    (hexp : lease.expiresAt < now) :
    streamEvents events cg now fromSeq bs lid conds =
      .error .leaseExpired := by
  simp [streamEvents, hfind, hexp]

/-- The exact result of a successful `_stream_events` call: the renewed
lease table together with the filtered, sorted, optionally limited rows. -/
theorem streamEvents_ok_shape (events : Store) (cg : CGState)
    (now fromSeq bs lid : Nat) (conds : Option (Row → Bool)) (lease : Lease)
    (hfind : cg.leases.find? (fun l => l.leaseId = lid) = some lease)
    (hexp : ¬ lease.expiresAt < now) :
    streamEvents events cg now fromSeq bs lid conds =
      .ok (⟨cg.groups,
            cg.leases.map (fun l =>
              if l.leaseId = lid then
                { l with lastActionAt := now, expiresAt := now + oneHour }
              else l),
            cg.nextLeaseId⟩,
           if 0 < bs then
             (List.insertionSort gsLE (events.rows.filter
               (streamEventsMatch fromSeq
                 ((cg.groups.find? (fun g => g.name = lease.groupName)).map
                   (fun g => g.size)) lease.member conds))).take bs
           else
             List.insertionSort gsLE (events.rows.filter
               (streamEventsMatch fromSeq
                 ((cg.groups.find? (fun g => g.name = lease.groupName)).map
                   (fun g => g.size)) lease.member conds))) := by
  simp [streamEvents, hfind, hexp]

/-- A successful call is only possible with a known, unexpired lease; this
extracts the result shape from a success equation. -/
theorem streamEvents_ok_elim (events : Store) (cg : CGState)
    (now fromSeq bs lid : Nat) (conds : Option (Row → Bool))
    (cg' : CGState) (out : List Row)
    (h : streamEvents events cg now fromSeq bs lid conds = .ok (cg', out)) :
    ∃ lease, cg.leases.find? (fun l => l.leaseId = lid) = some lease ∧
      ¬ lease.expiresAt < now ∧
      cg' = ⟨cg.groups,
        cg.leases.map (fun l =>
          if l.leaseId = lid then
            { l with lastActionAt := now, expiresAt := now + oneHour }
          else l),
        cg.nextLeaseId⟩ ∧
      out = (if 0 < bs then
          (List.insertionSort gsLE (events.rows.filter
            (streamEventsMatch fromSeq
              ((cg.groups.find? (fun g => g.name = lease.groupName)).map
                (fun g => g.size)) lease.member conds))).take bs
        else
          List.insertionSort gsLE (events.rows.filter
            (streamEventsMatch fromSeq
              ((cg.groups.find? (fun g => g.name = lease.groupName)).map
                (fun g => g.size)) lease.member conds))) := by
  cases hfind : cg.leases.find? (fun l => l.leaseId = lid) with
  | none =>
    rw [streamEvents_not_found events cg now fromSeq bs lid conds hfind] at h
    exact absurd h (by simp)
  | some lease =>
    by_cases hexp : lease.expiresAt < now
    · rw [streamEvents_expired events cg now fromSeq bs lid conds lease
        hfind hexp] at h
      exact absurd h (by simp)
    · rw [streamEvents_ok_shape events cg now fromSeq bs lid conds lease
        hfind hexp] at h
      simp only [Except.ok.injEq, Prod.mk.injEq] at h
      exact ⟨lease, rfl, hexp, h.1.symm, h.2.symm⟩

/-- A row passing the dynamic filter lies strictly beyond the requested
starting sequence number. -/
theorem streamEventsMatch_gt {fromSeq : Nat} {size : Option Nat} {m : Nat}
    {conds : Option (Row → Bool)} {r : Row}
    (h : streamEventsMatch fromSeq size m conds r = true) :
    fromSeq < r.globalSequence := by
  simp only [streamEventsMatch, Bool.and_eq_true, decide_eq_true_eq] at h
  exact h.1.1

/-- A row passing the dynamic filter with a known group size hits exactly
the member's partition value. -/
theorem streamEventsMatch_partition {fromSeq : Nat} {sz m : Nat}
    {conds : Option (Row → Bool)} {r : Row}
    (h : streamEventsMatch fromSeq (some sz) m conds r = true) :
    pgMod (pgAbs (hash_64 r.streamId)) (sz : Int) = (m : Int) := by
  simp only [streamEventsMatch, Bool.and_eq_true, decide_eq_true_eq] at h
  exact h.1.2

/-- Claim C3 (amended: the partition value is the absolute value of the
first 64 bits of the digest read as a signed two's-complement 64-bit
integer, reduced modulo N — not the unsigned reading): for every stream
identifier and every group size N > 0 the code's partition value lies in
[0, N), and a row beyond the starting sequence that satisfies the extra
conditions is matched by exactly one of the N member indices, so no such
event is skipped and none is seen by two members. -/
theorem partition_in_range_exactly_one_member (r : Row) (N : Nat)
    (hN : 0 < N) (fromSeq : Nat) (conds : Option (Row → Bool))
    (hgs : fromSeq < r.globalSequence)
    (hconds : ∀ p, conds = some p → p r = true) :
    0 ≤ pgMod (pgAbs (hash_64 r.streamId)) (N : Int) ∧
    pgMod (pgAbs (hash_64 r.streamId)) (N : Int) < (N : Int) ∧
    ∃! m : Nat, m < N ∧
      streamEventsMatch fromSeq (some N) m conds r = true := by
  have h0 : 0 ≤ pgMod (pgAbs (hash_64 r.streamId)) (N : Int) :=
    Int.tmod_nonneg _ (abs_nonneg _)
  have hlt : pgMod (pgAbs (hash_64 r.streamId)) (N : Int) < (N : Int) :=
    Int.tmod_lt_of_pos _ (by exact_mod_cast hN)
  refine ⟨h0, hlt,
    (pgMod (pgAbs (hash_64 r.streamId)) (N : Int)).toNat, ⟨?_, ?_⟩, ?_⟩
  · omega
  · simp only [streamEventsMatch, Bool.and_eq_true, decide_eq_true_eq]
    refine ⟨⟨hgs, by rw [Int.toNat_of_nonneg h0]⟩, ?_⟩
    cases conds with
    | none => simp
    | some p => simpa using hconds p rfl
  · rintro m' ⟨_, hmatch⟩
    have hm' := streamEventsMatch_partition hmatch
    omega

set_option maxRecDepth 1000000 in
/-- Witness for `partition_in_range_exactly_one_member` at stream id "b"
and group size 5: the code's partition value is in [0, 5) and exactly one
of the five members matches the row. -/
theorem partition_in_range_exactly_one_member_witness :
    0 ≤ pgMod (pgAbs (hash_64 "b")) ((5 : Nat) : Int) ∧
    pgMod (pgAbs (hash_64 "b")) ((5 : Nat) : Int) < ((5 : Nat) : Int) ∧
    ∃! m : Nat, m < 5 ∧
      streamEventsMatch 0 (some 5) m none ⟨1, "t", "b", 1, "e", "p", "m"⟩
        = true :=
  partition_in_range_exactly_one_member ⟨1, "t", "b", 1, "e", "p", "m"⟩ 5
    (by decide) 0 none (by decide) (fun p hp => nomatch hp)

/-- Every row of a successful `_stream_events` result comes from the
events table and passes the dynamic filter. -/
theorem streamEvents_ok_mem (events : Store) (cg : CGState)
    (now fromSeq bs lid : Nat) (conds : Option (Row → Bool)) (lease : Lease)
    (cg' : CGState) (out : List Row)
    (hfind : cg.leases.find? (fun l => l.leaseId = lid) = some lease)
    (h : streamEvents events cg now fromSeq bs lid conds = .ok (cg', out)) :
    ∀ r ∈ out, r ∈ events.rows ∧
      streamEventsMatch fromSeq
        ((cg.groups.find? (fun g => g.name = lease.groupName)).map
          (fun g => g.size)) lease.member conds r = true := by
  obtain ⟨lease', hfind', _, _, hout⟩ :=
    streamEvents_ok_elim events cg now fromSeq bs lid conds cg' out h
  rw [hfind] at hfind'
  cases hfind'
  intro r hr
  rw [hout] at hr
  have hr' : r ∈ List.insertionSort gsLE (events.rows.filter
      (streamEventsMatch fromSeq
        ((cg.groups.find? (fun g => g.name = lease.groupName)).map
          (fun g => g.size)) lease.member conds)) := by
    by_cases hbs : 0 < bs
    · rw [if_pos hbs] at hr
      exact List.take_subset bs _ hr
    · rw [if_neg hbs] at hr
      exact hr
  have := (List.mem_insertionSort gsLE).mp hr'
  exact List.mem_filter.mp this

/-- Claim C8: a lease-carrying stream call fails with the lease-not-found
error when no lease has the given id and with the lease-expired error
when the lease's `expiresAt` has already passed — in both cases the call
returns an error and produces no event — and under a valid lease every
produced event's partition value equals the lease's member index. -/
theorem lease_errors_and_partition_filter (events : Store) (cg : CGState)
    (now fromSeq bs lid : Nat) (conds : Option (Row → Bool)) :
    (cg.leases.find? (fun l => l.leaseId = lid) = none →
      streamEvents events cg now fromSeq bs lid conds =
        .error .leaseNotFound) ∧
    (∀ lease, cg.leases.find? (fun l => l.leaseId = lid) = some lease →
      lease.expiresAt < now →
      streamEvents events cg now fromSeq bs lid conds =
        .error .leaseExpired) ∧
    (∀ lease g cg' out,
      cg.leases.find? (fun l => l.leaseId = lid) = some lease →
      cg.groups.find? (fun g' => g'.name = lease.groupName) = some g →
      streamEvents events cg now fromSeq bs lid conds = .ok (cg', out) →
      ∀ r ∈ out,
        pgMod (pgAbs (hash_64 r.streamId)) (g.size : Int) =
          (lease.member : Int)) := by
  refine ⟨streamEvents_not_found events cg now fromSeq bs lid conds,
    fun lease hfind hexp =>
      streamEvents_expired events cg now fromSeq bs lid conds lease hfind hexp,
    fun lease g cg' out hfind hg h r hr => ?_⟩
  have hmem := streamEvents_ok_mem events cg now fromSeq bs lid conds lease
    cg' out hfind h r hr
  rw [hg] at hmem
  exact streamEventsMatch_partition hmem.2

/-- Witness for `lease_errors_and_partition_filter`: with a lease table
holding the single lease 9 of group "g" expiring at time 50, looking up
lease 8 is refused, streaming at time 60 reports the expiry, and a
successful call at time 40 on an empty events table produces only rows
matching the member's partition (vacuously, there are none). -/
theorem lease_errors_and_partition_filter_witness :
    streamEvents ⟨[], 0⟩ ⟨[⟨"g", 1⟩], [⟨9, "g", 0, 0, 50, 0⟩], 10⟩ 40 0 0 8
        none = .error .leaseNotFound ∧
    streamEvents ⟨[], 0⟩ ⟨[⟨"g", 1⟩], [⟨9, "g", 0, 0, 50, 0⟩], 10⟩ 60 0 0 9
        none = .error .leaseExpired ∧
    ∀ r ∈ ([] : List Row),
      pgMod (pgAbs (hash_64 r.streamId)) ((1 : Nat) : Int) =
        ((0 : Nat) : Int) := by
  refine ⟨?_, ?_, ?_⟩
  · exact (lease_errors_and_partition_filter ⟨[], 0⟩
      ⟨[⟨"g", 1⟩], [⟨9, "g", 0, 0, 50, 0⟩], 10⟩ 40 0 0 8 none).1 (by decide)
  · exact (lease_errors_and_partition_filter ⟨[], 0⟩
      ⟨[⟨"g", 1⟩], [⟨9, "g", 0, 0, 50, 0⟩], 10⟩ 60 0 0 9 none).2.1
      ⟨9, "g", 0, 0, 50, 0⟩ (by decide) (by decide)
  · exact (lease_errors_and_partition_filter ⟨[], 0⟩
      ⟨[⟨"g", 1⟩], [⟨9, "g", 0, 0, 50, 0⟩], 10⟩ 40 0 0 9 none).2.2
      ⟨9, "g", 0, 0, 50, 0⟩ ⟨"g", 1⟩
      ⟨[⟨"g", 1⟩], [⟨9, "g", 0, 0, 3640, 40⟩], 10⟩ []
      (by decide) (by decide) (by decide)

/-- Claim C10: a successful lease-scoped stream call renews exactly its
own lease — setting its `expiresAt` to one hour past now and its
`lastActionAt` to now — and changes nothing else: the groups table, the
id counter, every other lease, and every other field of the renewed lease
are untouched. -/
theorem stream_renews_lease_frame (events : Store) (cg : CGState)
    (now fromSeq bs lid : Nat) (conds : Option (Row → Bool))
    (cg' : CGState) (out : List Row)
    (h : streamEvents events cg now fromSeq bs lid conds = .ok (cg', out)) :
    cg'.groups = cg.groups ∧ cg'.nextLeaseId = cg.nextLeaseId ∧
    cg'.leases.length = cg.leases.length ∧
    (∀ l ∈ cg.leases, l.leaseId ≠ lid → l ∈ cg'.leases) ∧
    (∀ l ∈ cg.leases, l.leaseId = lid →
      { l with expiresAt := now + oneHour, lastActionAt := now } ∈
        cg'.leases) ∧
    (∀ l' ∈ cg'.leases, ∃ l ∈ cg.leases, l' = l ∨
      (l.leaseId = lid ∧
        l' = { l with expiresAt := now + oneHour, lastActionAt := now })) := by
  obtain ⟨lease, hfind, hexp, hcg', hout⟩ :=
    streamEvents_ok_elim events cg now fromSeq bs lid conds cg' out h
  subst hcg'
  refine ⟨rfl, rfl, List.length_map _ _, fun l hl hne => ?_, fun l hl heq => ?_,
    fun l' hl' => ?_⟩
  · exact List.mem_map.mpr ⟨l, hl, by simp [hne]⟩
  · exact List.mem_map.mpr ⟨l, hl, by simp [heq]⟩
  · obtain ⟨l, hl, hfl⟩ := List.mem_map.mp hl'
    by_cases hc : l.leaseId = lid
    · exact ⟨l, hl, Or.inr ⟨hc, by rw [← hfl]; simp [hc]⟩⟩
    · exact ⟨l, hl, Or.inl (by rw [← hfl]; simp [hc])⟩

/-- Witness for `stream_renews_lease_frame`: a successful call at time 40
renews lease 9 to expire at 3640 and leaves the group row, the bystander
lease 7, and the id counter as they were. -/
theorem stream_renews_lease_frame_witness :
    ((⟨[⟨"g", 2⟩],
       [⟨7, "h", 0, 0, 99, 0⟩, ⟨9, "g", 0, 0, 50, 0⟩], 10⟩ : CGState).groups =
        [⟨"g", 2⟩] ∧ True) ∧
    (⟨7, "h", 0, 0, 99, 0⟩ : Lease) ∈
      ([⟨7, "h", 0, 0, 99, 0⟩, ⟨9, "g", 0, 0, 3640, 40⟩] : List Lease) ∧
    (⟨9, "g", 0, 0, 3640, 40⟩ : Lease) ∈
      ([⟨7, "h", 0, 0, 99, 0⟩, ⟨9, "g", 0, 0, 3640, 40⟩] : List Lease) := by
  have h := stream_renews_lease_frame ⟨[], 0⟩
    ⟨[⟨"g", 2⟩], [⟨7, "h", 0, 0, 99, 0⟩, ⟨9, "g", 0, 0, 50, 0⟩], 10⟩
    40 0 0 9 none
    ⟨[⟨"g", 2⟩], [⟨7, "h", 0, 0, 99, 0⟩, ⟨9, "g", 0, 0, 3640, 40⟩], 10⟩ []
    (by decide)
  exact ⟨⟨rfl, trivial⟩,
    h.2.2.2.1 ⟨7, "h", 0, 0, 99, 0⟩ (by decide) (by decide),
    h.2.2.2.2.1 ⟨9, "g", 0, 0, 50, 0⟩ (by decide) (by decide)⟩

set_option maxRecDepth 1000000 in
/-- Claim C7 as stated is false for the lease-filtered streaming
functions: they select `global_sequence_number > $1`, not `>= $1`. At a
table holding one committed event with sequence number 1 matching the
only member's partition, a lease-scoped stream from sequence 1 returns no
rows, though the claim requires an event with sequence `>= fromSequence`
satisfying the predicate to be returned. -/
theorem lease_stream_skips_equal_sequence_event :
    streamEvents ⟨[⟨1, "t", "a", 1, "e", "p", "m"⟩], 1⟩
        ⟨[⟨"g", 1⟩], [⟨0, "g", 0, 0, 3600, 0⟩], 1⟩ 10 1 0 0 none =
      .ok (⟨[⟨"g", 1⟩], [⟨0, "g", 0, 0, 3610, 10⟩], 1⟩, []) ∧
    (⟨1, "t", "a", 1, "e", "p", "m"⟩ : Row) ∈
      (⟨[⟨1, "t", "a", 1, "e", "p", "m"⟩], 1⟩ : Store).rows ∧
    1 ≤ (⟨1, "t", "a", 1, "e", "p", "m"⟩ : Row).globalSequence ∧
    pgMod (pgAbs (hash_64 "a")) ((1 : Nat) : Int) = ((0 : Nat) : Int) := by
  decide

/-- Claim C7 (amended: the two store-level global reads and the by-stream
read use an inclusive bound `>= fromSequence` / `>= fromVersion`, while
the lease-filtered `_stream_events` family uses the strict bound
`> fromSequence`): every read returns exactly the committed events
satisfying its predicate and bound, ordered ascending by the relevant
sequence field; `_stream_events` truncates to the batch size when it is
positive, with 0 meaning no limit. -/
theorem stream_reads_characterization (st events : Store) (cg : CGState)
    (now fromSeq bs lid : Nat) (typ : String) (id : StreamID)
    (conds : Option (Row → Bool)) :
    (∀ r, r ∈ EventStore.StreamAll st fromSeq ↔
      r ∈ st.rows ∧ fromSeq ≤ r.globalSequence) ∧
    (EventStore.StreamAll st fromSeq).Sorted gsLE ∧
    (∀ r, r ∈ EventStore.StreamByType st typ fromSeq ↔
      r ∈ st.rows ∧ r.streamType = typ ∧ fromSeq ≤ r.globalSequence) ∧
    (EventStore.StreamByType st typ fromSeq).Sorted gsLE ∧
    (∀ r, r ∈ EventStore.Stream st id fromSeq ↔
      r ∈ st.rows ∧ r.streamType = id.type ∧ r.streamId = id.name ∧
        fromSeq ≤ r.version) ∧
    (EventStore.Stream st id fromSeq).Sorted versionLE ∧
    (∀ lease cg' out,
      cg.leases.find? (fun l => l.leaseId = lid) = some lease →
      streamEvents events cg now fromSeq bs lid conds = .ok (cg', out) →
      out.Sorted gsLE ∧
      (∀ r ∈ out, r ∈ events.rows ∧ fromSeq < r.globalSequence ∧
        streamEventsMatch fromSeq
          ((cg.groups.find? (fun g => g.name = lease.groupName)).map
            (fun g => g.size)) lease.member conds r = true) ∧
      (bs = 0 → ∀ r, r ∈ out ↔ r ∈ events.rows ∧
        streamEventsMatch fromSeq
          ((cg.groups.find? (fun g => g.name = lease.groupName)).map
            (fun g => g.size)) lease.member conds r = true) ∧
      (0 < bs → out.length ≤ bs)) := by
  refine ⟨?_, List.sorted_insertionSort gsLE _, ?_,
    List.sorted_insertionSort gsLE _, ?_, List.sorted_insertionSort versionLE _,
    fun lease cg' out hfind h => ?_⟩
  · intro r
    simp [EventStore.StreamAll, List.mem_insertionSort, List.mem_filter]
  · intro r
    simp [EventStore.StreamByType, List.mem_insertionSort, List.mem_filter]
  · intro r
    simp [EventStore.Stream, List.mem_insertionSort, List.mem_filter,
      and_assoc]
  · obtain ⟨lease', hfind', hexp, hcg', hout⟩ :=
      streamEvents_ok_elim events cg now fromSeq bs lid conds cg' out h
    rw [hfind] at hfind'
    cases hfind'
    refine ⟨?_, fun r hr => ?_, fun hbs0 r => ?_, fun hbs => ?_⟩
    · rw [hout]
      by_cases hbs : 0 < bs
      · rw [if_pos hbs]
        exact (List.sorted_insertionSort gsLE _).take
      · rw [if_neg hbs]
        exact List.sorted_insertionSort gsLE _
    · have hmem := streamEvents_ok_mem events cg now fromSeq bs lid conds
        lease cg' out hfind h r hr
      exact ⟨hmem.1, streamEventsMatch_gt hmem.2, hmem.2⟩
    · rw [hout, hbs0]
      simp [List.mem_insertionSort, List.mem_filter]
    · rw [hout, if_pos hbs]
      simp [List.length_take]

set_option maxRecDepth 1000000 in
/-- Witness for `stream_reads_characterization`: a one-row table streamed
globally from sequence 2 returns its row (sequence 5), and a successful
lease-scoped call from sequence 1 yields that row sorted, each fact
obtained from the characterization. -/
theorem stream_reads_characterization_witness :
    ((⟨5, "t", "a", 1, "e", "p", "m"⟩ : Row) ∈
        EventStore.StreamAll ⟨[⟨5, "t", "a", 1, "e", "p", "m"⟩], 5⟩ 2 ↔
      (⟨5, "t", "a", 1, "e", "p", "m"⟩ : Row) ∈
          (⟨[⟨5, "t", "a", 1, "e", "p", "m"⟩], 5⟩ : Store).rows ∧
        2 ≤ (⟨5, "t", "a", 1, "e", "p", "m"⟩ : Row).globalSequence) ∧
    List.Sorted gsLE [(⟨5, "t", "a", 1, "e", "p", "m"⟩ : Row)] := by
  constructor
  · exact (stream_reads_characterization
      ⟨[⟨5, "t", "a", 1, "e", "p", "m"⟩], 5⟩
      ⟨[⟨5, "t", "a", 1, "e", "p", "m"⟩], 5⟩
      ⟨[⟨"g", 1⟩], [⟨3, "g", 0, 0, 3600, 0⟩], 4⟩ 10 2 0 3 "t" ⟨"t", "a"⟩
      none).1 ⟨5, "t", "a", 1, "e", "p", "m"⟩
  · exact ((stream_reads_characterization
      ⟨[⟨5, "t", "a", 1, "e", "p", "m"⟩], 5⟩
      ⟨[⟨5, "t", "a", 1, "e", "p", "m"⟩], 5⟩
      ⟨[⟨"g", 1⟩], [⟨3, "g", 0, 0, 3600, 0⟩], 4⟩ 10 1 0 3 "t" ⟨"t", "a"⟩
      none).2.2.2.2.2.2 ⟨3, "g", 0, 0, 3600, 0⟩
      ⟨[⟨"g", 1⟩], [⟨3, "g", 0, 0, 3610, 10⟩], 4⟩
      [⟨5, "t", "a", 1, "e", "p", "m"⟩] (by decide) (by decide)).1

/-! ### Lemmas on the checkpointer -/

/-- Reading the just-written subscription returns the written value. -/
theorem ckRead_ckWrite_self :
    ∀ (s : List (String × Nat)) (name : String) (n : Nat),
      ckRead (ckWrite s name n) name = n := by
  intro s name n
  induction s with
  | nil => simp [ckWrite, ckRead]
  | cons p rest ih =>
    by_cases h : p.1 = name
    · simp [ckWrite, ckRead, h]
    · simp [ckWrite, ckRead, h, ih]

/-- Writing one subscription leaves every other subscription's value
unchanged. -/
theorem ckRead_ckWrite_ne :
    ∀ (s : List (String × Nat)) (o name : String) (n : Nat), o ≠ name →
      ckRead (ckWrite s o n) name = ckRead s name := by
  intro s o name n h
  induction s with
  | nil => simp [ckWrite, ckRead, h]
  | cons p rest ih =>
    by_cases hp : p.1 = o
    · simp [ckWrite, ckRead, hp, h]
    · simp [ckWrite, ckRead, hp, ih]

/-- Writing the same subscription twice keeps only the last write. -/
theorem ckWrite_ckWrite_self :
    ∀ (s : List (String × Nat)) (name : String) (m n : Nat),
      ckWrite (ckWrite s name m) name n = ckWrite s name n := by
  intro s name m n
  induction s with
  | nil => simp [ckWrite]
  | cons p rest ih =>
    by_cases hp : p.1 = name
    · simp [ckWrite, hp]
    · simp [ckWrite, hp, ih]

/-- A fold of writes which never touches a subscription leaves its read
value unchanged. -/
theorem ckRead_foldl_untouched :
    ∀ (ops : List (String × Nat)) (s : List (String × Nat)) (name : String),
      (∀ op ∈ ops, op.1 ≠ name) →
      ckRead (ops.foldl (fun acc op => ckWrite acc op.1 op.2) s) name =
        ckRead s name := by
  intro ops
  induction ops with
  | nil => intro s name _; rfl
  | cons op rest ih =>
    intro s name h
    simp only [List.foldl_cons]
    rw [ih _ name (fun o ho => h o (List.mem_cons_of_mem op ho)),
      ckRead_ckWrite_ne s op.1 name op.2 (h op (List.mem_cons_self op rest))]

/-- Claim C9: for every subscription name, `Read` returns 0 when no write
of the history touched that name; `Write(name, n)` followed by
`Read(name)` returns `n` from any state; and `Write` is an idempotent,
last-write-wins upsert. -/
theorem checkpoint_roundtrip :
    (∀ (ops : List (String × Nat)) (name : String),
      (∀ op ∈ ops, op.1 ≠ name) → ckRead (ckRun ops) name = 0) ∧
    (∀ (s : List (String × Nat)) (name : String) (n : Nat),
      ckRead (ckWrite s name n) name = n) ∧
    (∀ (s : List (String × Nat)) (name : String) (n : Nat),
      ckWrite (ckWrite s name n) name n = ckWrite s name n) ∧
    (∀ (s : List (String × Nat)) (name : String) (m n : Nat),
      ckRead (ckWrite (ckWrite s name m) name n) name = n) := by
  refine ⟨fun ops name h => ?_, ckRead_ckWrite_self,
    fun s name n => ckWrite_ckWrite_self s name n n,
    fun s name m n => ckRead_ckWrite_self _ _ _⟩
  have hfold := ckRead_foldl_untouched ops [] name h
  simpa [ckRun, ckRead] using hfold

/-- Witness for `checkpoint_roundtrip`, mirroring `TestCheckpointer`:
reading "test-subscription" before any write for it returns 0, and after
writing 1200 it returns 1200. -/
theorem checkpoint_roundtrip_witness :
    ckRead (ckRun [("other", 7)]) "test-subscription" = 0 ∧
    ckRead (ckWrite [] "test-subscription" 1200) "test-subscription" =
      1200 := by
  exact ⟨checkpoint_roundtrip.1 [("other", 7)] "test-subscription"
      (by decide),
    checkpoint_roundtrip.2.1 [] "test-subscription" 1200⟩
